import Mathlib

/-!
Shallow embedding of the experiment web application in `src/app.py`:
session-held round records, the round submission handler, the results
finalizer, the admin key gate and the admin aggregation helpers, together
with theorems checking the specification's claims about them.
-/

namespace Exp2

/-- Python truthiness defaulting for an optional string: `v or d` where a
missing value (`None`) and the empty string are falsy. -/
def pyOrStr (v : Option String) (d : String) : String :=
  match v with
  | none => d
  | some s => if s = "" then d else s

/-- Python truthiness defaulting for an optional natural: `v or d` where
`None` and `0` are falsy (used for `st.get("R") or 1`). -/
def pyOrNat (v : Option Nat) (d : Nat) : Nat :=
  match v with
  | none => d
  | some k => if k = 0 then d else k

/-- Numeric value of a list of decimal digit characters. -/
def digitsVal (l : List Char) : Nat :=
  l.foldl (fun a c => 10 * a + (c.toNat - 48)) 0

/-- Strip leading and trailing whitespace from a character list. -/
def stripChars (l : List Char) : List Char :=
  ((l.dropWhile Char.isWhitespace).reverse.dropWhile Char.isWhitespace).reverse

/-- A nonempty list consisting only of decimal digits. -/
def allDigits (l : List Char) : Bool :=
  !l.isEmpty && l.all Char.isDigit

/-- Models Python's `int(s)` conversion of a string: optional surrounding
whitespace, an optional sign, then one or more decimal digits; any other
input raises `ValueError`, modelled as `none`. -/
def pyInt (s : String) : Option Int :=
  match stripChars s.toList with
  | [] => none
  | c :: rest =>
    if c = '+' then (if allDigits rest then some (digitsVal rest : Int) else none)
    else if c = '-' then (if allDigits rest then some (-(digitsVal rest : Int)) else none)
    else if allDigits (c :: rest) then some (digitsVal (c :: rest) : Int) else none

/-- Models Python's `s.strip()` on a string. -/
def pyStrip (s : String) : String :=
  ⟨stripChars s.toList⟩

/-- One per-round record kept in the session's `rounds` list
(`{round, x, win, wealth, time_ms}` in `app.py`). -/
structure RoundRec where
  round : Nat
  x : Int
  win : Bool
  wealth : ℚ
  time_ms : Int
deriving Repr, DecidableEq

/-- The payoff formula of `round_page`:
`wealth = 100 - x + (2.5 * x if win else 0.0)`. -/
def wealth (x : ℚ) (win : Bool) : ℚ :=
  100 - x + (if win then (5 / 2) * x else 0)

/-- Parsing of the `x` form field in `round_page`:
`int(request.form.get("x") or "0")` with `ValueError` caught and coerced
to `0`, then `max(0, min(100, x))`. -/
def parse_x (v : Option String) : Int :=
  let x0 : Int :=
    match pyInt (pyOrStr v "0") with
    | some k => k
    | none => 0
  max 0 (min 100 x0)

/-- The save/overwrite loop of `round_page`: replace the first record whose
round number is `n` by `nr`, appending `nr` when no record matches. -/
def saveRound (n : Nat) (nr : RoundRec) : List RoundRec → List RoundRec
  | [] => [nr]
  | r :: rs => if r.round = n then nr :: rs else r :: saveRound n nr rs

/-- Ordering of round records by round number, the sort key of
`rounds.sort(key=lambda r: r["round"])`. -/
def roundLE (a b : RoundRec) : Prop :=
  a.round ≤ b.round

instance : DecidableRel roundLE := fun a b => Nat.decLe a.round b.round

instance : IsTotal RoundRec roundLE :=
  ⟨fun a b => Nat.le_total a.round b.round⟩

instance : IsTrans RoundRec roundLE :=
  ⟨fun _ _ _ hab hbc => Nat.le_trans hab hbc⟩

/-- The in-place sort `rounds.sort(key=lambda r: r["round"])`. -/
def sortRounds (l : List RoundRec) : List RoundRec :=
  List.insertionSort roundLE l

/-- Demographics captured by the survey step. -/
structure Demographics where
  name : Option String
  gender : String
  age : Option Int
  race : String
deriving Repr, DecidableEq

/-- The transient per-participant session state (`current_state()`):
round records, the secretly chosen round `R`, and demographics. -/
structure SessionState where
  rounds : List RoundRec
  R : Option Nat
  demographics : Demographics
deriving Repr, DecidableEq

/-- Outcome of a POST to `/round/<n>`: a 404 for `n` outside `[1,10]`, an
uncaught exception (`err`), or the updated session state. -/
inductive RoundPostResult where
  | notFound
  | err
  | ok (st : SessionState)
deriving Repr, DecidableEq

/-- The POST branch of `round_page` in `app.py`: range-check `n`, parse and
clamp `x` (coercing parse failures to 0), parse `time_ms` with
`int(request.form.get("time_ms") or "0")` — with no exception handler, so a
non-empty non-numeric value raises —, draw `win`, compute `wealth`, upsert
the record for round `n` and sort the rounds by round number. -/
def round_page_post (n : Nat) (formX formTime : Option String) (win : Bool)
    (st : SessionState) : RoundPostResult :=
  if n < 1 ∨ 10 < n then .notFound
  else
    let x := parse_x formX
    match pyInt (pyOrStr formTime "0") with
    | none => .err
    | some t =>
      let nr : RoundRec := ⟨n, x, win, wealth (x : ℚ) win, t⟩
      .ok ⟨sortRounds (saveRound n nr st.rounds), st.R, st.demographics⟩

/-- The POST branch of `survey` in `app.py`: `name` is the stripped form
value or `None` when empty, `gender`/`race` default to `""`, and `age` is
`int(age) if age else None` — with no exception handler, so a non-empty
non-numeric age raises, modelled as `none`. -/
def survey_post (formName formGender formAge formRace : Option String) :
    Option Demographics :=
  let name : Option String :=
    let s := pyStrip (pyOrStr formName "")
    if s = "" then none else some s
  let gender := pyOrStr formGender ""
  let ageStr := pyOrStr formAge ""
  let race := pyOrStr formRace ""
  if ageStr = "" then some ⟨name, gender, none, race⟩
  else
    match pyInt ageStr with
    | none => none
    | some k => some ⟨name, gender, some k, race⟩

/-- The Participant row persisted by the `results` view. -/
structure ParticipantRow where
  name : Option String
  gender : String
  age : Option Int
  race : String
  chosen_round : Nat
  rounds : List RoundRec
  average_x : ℚ
  final_payoff : ℚ
deriving Repr, DecidableEq

/-- Outcome of a GET to `/results`: a redirect to a round page (no
persistence) or the finalized, persisted participant row. -/
inductive ResultsOutcome where
  | redirect (n : Nat)
  | finalize (p : ParticipantRow)
deriving Repr, DecidableEq

/-- The `results` view of `app.py`: with fewer than 10 recorded rounds it
redirects to round `len(rounds) + 1`; otherwise it computes `average_x`,
resolves `R = st.get("R") or 1`, looks up `wealth` of the first record whose
round number equals `R` (default `0.0`), and persists the participant row. -/
def results (st : SessionState) : ResultsOutcome :=
  if st.rounds.length < 10 then .redirect (st.rounds.length + 1)
  else
    let xs := st.rounds.map (fun r => r.x)
    let average_x : ℚ := if xs.isEmpty then 0 else (xs.sum : ℚ) / (xs.length : ℚ)
    let R := pyOrNat st.R 1
    let wealth_R : ℚ := ((st.rounds.find? (fun r => r.round == R)).map (fun r => r.wealth)).getD 0
    .finalize ⟨st.demographics.name, st.demographics.gender, st.demographics.age,
      st.demographics.race, R, st.rounds, average_x, wealth_R⟩

/-- Follows the claim's words, not the code: the smallest round number `n`
in `[1,10]` with no RoundRecord for `n` in the session (11 when none is
missing). Used to compare the code's redirect target with the spec's. -/
def specFirstMissing (keys : List Nat) : Nat :=
  (((List.range' 1 10).find? (fun k => !(keys.contains k))).getD 11)

/-- The key resolution of `require_admin`:
`request.args.get("key") or request.form.get("key") or ""`. -/
def resolveKey (argsKey formKey : Option String) : String :=
  pyOrStr argsKey (pyOrStr formKey "")

/-- The `require_admin` guard of `app.py`: with `expected = os.getenv("ADMIN_KEY")`,
the request is rejected (`abort(403)`, modelled as `false`) when `expected`
is missing or empty, or when the resolved key differs from it. -/
def require_admin (argsKey formKey expected : Option String) : Bool :=
  let key := resolveKey argsKey formKey
  match expected with
  | none => false
  | some e => if e = "" then false else key == e

/-- An admin endpoint body guarded by `require_admin`: every admin route
(`/admin`, `/admin/state`, `/admin/reset`, `/admin/export`,
`/admin/stats.json`) calls `require_admin()` first and proceeds only when
it allows the request; `none` models the 403 response. -/
def adminGate {α : Type} (argsKey formKey expected : Option String) (body : α) :
    Option α :=
  if require_admin argsKey formKey expected then some body else none

/-- The bucket lower bound `(d["x"] // bin_size) * bin_size` of
`hist_by_bin`; Python's `//` is floor division, `Int.fdiv`. -/
def bucketLow (binSize x : Int) : Int :=
  (Int.fdiv x binSize) * binSize

/-- The bucket label of `hist_by_bin`. -/
def binLabel (binSize b : Int) : String :=
  toString b ++ "–" ++ toString (b + binSize - 1)

/-- The `hist_by_bin` helper of `admin_stats_json`: it counts decisions per
touched bucket (a `defaultdict`, so only buckets with at least one decision
appear) and emits the entries sorted by the numeric lower bound parsed back
from the label, which for label `binLabel binSize b` is `b`; the embedding
keys the buckets directly by their lower bound, which determines the label
injectively. Each emitted entry is `(lower bound, label, count)`. -/
def hist_by_bin (binSize : Int) (xs : List Int) : List (Int × String × Nat) :=
  let lows := List.insertionSort (fun a b => a ≤ b) ((xs.map (bucketLow binSize)).dedup)
  lows.map (fun b => (b, binLabel binSize b,
    (xs.filter (fun x => bucketLow binSize x == b)).length))

/-- One flattened decision of `admin_stats_json`: the per-round record
joined with its participant's demographic fields. -/
structure Decision where
  gender : String
  age : Option Int
  race : String
  x : Int
deriving Repr, DecidableEq

/-- Ordering of the age group keys by integer value (only used on key lists
that contain no `none`). -/
def ageKeyLE (a b : Option Int) : Prop :=
  a.getD 0 ≤ b.getD 0

instance : DecidableRel ageKeyLE :=
  fun a b => (inferInstance : Decidable (a.getD 0 ≤ b.getD 0))

instance : IsTotal (Option Int) ageKeyLE :=
  ⟨fun a b => Int.le_total (a.getD 0) (b.getD 0)⟩

instance : IsTrans (Option Int) ageKeyLE :=
  ⟨fun _ _ _ hab hbc => Int.le_trans hab hbc⟩

/-- Models Python 3's `sorted` on a duplicate-free list of keys that are
either `None` or `int` (the group keys of `avg_by("age")`): a list of
length at most 1 needs no comparison and is returned as is; a longer list
containing `None` compares `None` against another key, which raises
`TypeError` (modelled as `none`); otherwise all keys are integers and the
list is sorted by value. -/
def pySortAgeKeys (l : List (Option Int)) : Option (List (Option Int)) :=
  if l.length ≤ 1 then some l
  else if l.any (fun o => o.isNone) then none
  else some (List.insertionSort ageKeyLE l)

/-- The `avg_by` helper of `admin_stats_json` instantiated at the `"age"`
key: group sums and counts indexed by the decisions' distinct age values,
`sorted(counts.keys())` over those keys, then the per-group mean of `x`.
The result is `none` when the key sort raises. -/
def avg_by_age (ds : List Decision) : Option (List (Option Int × ℚ)) :=
  let keys := (ds.map (fun d => d.age)).dedup
  match pySortAgeKeys keys with
  | none => none
  | some ks =>
    some (ks.map (fun g =>
      let grp := ds.filter (fun d => d.age == g)
      (g, if grp.length = 0 then 0 else ((grp.map (fun d => d.x)).sum : ℚ) / (grp.length : ℚ))))

/-! ## Theorems -/

/-- C2: for every clamped commitment `x ∈ [0,100]` and outcome bit `win`,
the computed wealth is `100 - x + 2.5*x` on a win and `100 - x` otherwise,
hence `100 + 1.5*x` on a win, and wealth always lies in `[0, 250]`. -/
theorem wealth_formula_and_range (x : ℤ) (h0 : 0 ≤ x) (h1 : x ≤ 100) :
    wealth (x : ℚ) true = 100 + (3 / 2) * (x : ℚ) ∧
    wealth (x : ℚ) false = 100 - (x : ℚ) ∧
    ∀ win : Bool, 0 ≤ wealth (x : ℚ) win ∧ wealth (x : ℚ) win ≤ 250 := by
  have hx0 : (0 : ℚ) ≤ (x : ℚ) := by exact_mod_cast h0
  have hx1 : (x : ℚ) ≤ 100 := by exact_mod_cast h1
  refine ⟨?_, ?_, ?_⟩
  · unfold wealth
    norm_num
    ring
  · unfold wealth
    norm_num
  · intro win
    cases win <;> unfold wealth <;> norm_num <;> constructor <;> linarith

theorem wealth_formula_and_range_witness :
    wealth ((20 : ℤ) : ℚ) true = 100 + (3 / 2) * ((20 : ℤ) : ℚ) ∧
    wealth ((20 : ℤ) : ℚ) false = 100 - ((20 : ℤ) : ℚ) ∧
    ∀ win : Bool, 0 ≤ wealth ((20 : ℤ) : ℚ) win ∧ wealth ((20 : ℤ) : ℚ) win ≤ 250 :=
  wealth_formula_and_range 20 (by decide) (by decide)

/-- C3: every admin operation is rejected when the supplied key does not
exactly match the configured secret, and always rejected when no secret is
configured (fail closed); it proceeds only when a non-empty secret is
configured and the resolved key equals it. -/
theorem admin_gate_fail_closed :
    (∀ a f : Option String, ∀ body : Bool, adminGate a f none body = none) ∧
    (∀ a f : Option String, ∀ e : String, ∀ body : Bool,
      resolveKey a f ≠ e → adminGate a f (some e) body = none) ∧
    (∀ a f ex : Option String, ∀ body b : Bool, adminGate a f ex body = some b →
      ∃ e, ex = some e ∧ e ≠ "" ∧ resolveKey a f = e) := by
  refine ⟨?_, ?_, ?_⟩
  · intro a f body
    simp [adminGate, require_admin]
  · intro a f e body hne
    have hra : require_admin a f (some e) = false := by
      unfold require_admin
      by_cases he : e = ""
      · simp [he]
      · simp only [he, if_false]
        simpa [beq_iff_eq] using hne
    simp [adminGate, hra]
  · intro a f ex body b h
    unfold adminGate at h
    by_cases hra : require_admin a f ex = true
    · cases ex with
      | none => simp [require_admin] at hra
      | some e =>
        unfold require_admin at hra
        by_cases he : e = ""
        · simp [he] at hra
        · simp only [he, if_false, beq_iff_eq] at hra
          exact ⟨e, rfl, he, hra⟩
    · rw [Bool.not_eq_true] at hra
      simp [hra] at h

theorem admin_gate_fail_closed_witness :
    adminGate (some "wrong") none (some "secret") true = none :=
  admin_gate_fail_closed.2.1 (some "wrong") none "secret" true (by decide)

/-- C8: the `x` form field is parsed as an integer, invalid or missing input
is coerced to 0 before clamping, valid input is clamped into `[0,100]`, and
the stored value always lies in `[0,100]`. -/
theorem parse_x_clamped :
    (∀ v : Option String, 0 ≤ parse_x v ∧ parse_x v ≤ 100) ∧
    parse_x none = 0 ∧
    (∀ s : String, s ≠ "" → pyInt s = none → parse_x (some s) = 0) ∧
    (∀ s : String, ∀ k : Int, s ≠ "" → pyInt s = some k →
      parse_x (some s) = max 0 (min 100 k)) := by
  refine ⟨?_, by decide, ?_, ?_⟩
  · intro v
    exact ⟨le_max_left 0 _, max_le (by norm_num) (min_le_left _ _)⟩
  · intro s hs hnone
    simp [parse_x, pyOrStr, hs, hnone]
  · intro s k hs hk
    simp [parse_x, pyOrStr, hs, hk]

theorem parse_x_clamped_witness :
    parse_x (some "abc") = 0 ∧ parse_x (some "250") = max 0 (min 100 250) :=
  ⟨parse_x_clamped.2.2.1 "abc" (by decide) (by decide),
   parse_x_clamped.2.2.2 "250" 250 (by decide) (by decide)⟩

/-! ## Helper lemmas about the round upsert -/

theorem mem_saveRound_self (n : Nat) (nr : RoundRec) (l : List RoundRec) :
    nr ∈ saveRound n nr l := by
  induction l with
  | nil => simp [saveRound]
  | cons r rs ih =>
    by_cases h : r.round = n <;> simp [saveRound, h, ih]

theorem mem_of_mem_saveRound (n : Nat) (nr : RoundRec) (l : List RoundRec)
    (r : RoundRec) (hr : r ∈ saveRound n nr l) : r = nr ∨ r ∈ l := by
  induction l with
  | nil => simpa [saveRound] using hr
  | cons a as ih =>
    by_cases h : a.round = n
    · simp only [saveRound, if_pos h] at hr
      rcases List.mem_cons.mp hr with h1 | h2
      · exact .inl h1
      · exact .inr (.tail _ h2)
    · simp only [saveRound, if_neg h] at hr
      rcases List.mem_cons.mp hr with h1 | h2
      · exact .inr (by simp [h1])
      · rcases ih h2 with h3 | h4
        · exact .inl h3
        · exact .inr (.tail _ h4)

theorem map_round_saveRound (n : Nat) (nr : RoundRec) (hnr : nr.round = n)
    (l : List RoundRec) :
    (saveRound n nr l).map (fun r => r.round) =
      if n ∈ l.map (fun r => r.round) then l.map (fun r => r.round)
      else l.map (fun r => r.round) ++ [n] := by
  induction l with
  | nil => simp [saveRound, hnr]
  | cons a as ih =>
    by_cases h : a.round = n
    · simp [saveRound, h, hnr]
    · have hne : ¬ n = a.round := fun hc => h hc.symm
      by_cases h2 : n ∈ as.map (fun r => r.round) <;>
        simp [saveRound, h, ih, h2, hne]

theorem sortRounds_perm (l : List RoundRec) : List.Perm (sortRounds l) l :=
  List.perm_insertionSort roundLE l

theorem sorted_map_round_sortRounds (l : List RoundRec) :
    ((sortRounds l).map (fun r => r.round)).Sorted (· ≤ ·) := by
  have h := List.sorted_insertionSort roundLE l
  rw [List.Sorted, List.pairwise_map]
  exact h

theorem length_le_ten_of_nodup_keys (keys : List Nat) (hnd : keys.Nodup)
    (hmem : ∀ m ∈ keys, 1 ≤ m ∧ m ≤ 10) : keys.length ≤ 10 := by
  have hsub : keys.toFinset ⊆ Finset.Icc 1 10 := by
    intro m hm
    rw [List.mem_toFinset] at hm
    rcases hmem m hm with ⟨h1, h2⟩
    exact Finset.mem_Icc.mpr ⟨h1, h2⟩
  have hcard : keys.toFinset.card = keys.length := List.toFinset_card_of_nodup hnd
  have hle := Finset.card_le_card hsub
  rw [hcard] at hle
  simpa [Nat.card_Icc] using hle

theorem round_page_post_ok (n : Nat) (formX formTime : Option String) (win : Bool)
    (st st' : SessionState)
    (hok : round_page_post n formX formTime win st = .ok st') :
    (1 ≤ n ∧ n ≤ 10) ∧
    ∃ t, pyInt (pyOrStr formTime "0") = some t ∧
      st' = ⟨sortRounds (saveRound n
        ⟨n, parse_x formX, win, wealth ((parse_x formX : Int) : ℚ) win, t⟩ st.rounds),
        st.R, st.demographics⟩ := by
  unfold round_page_post at hok
  by_cases hn : n < 1 ∨ 10 < n
  · rw [if_pos hn] at hok
    exact absurd hok (by simp)
  · rw [if_neg hn] at hok
    push_neg at hn
    cases hpt : pyInt (pyOrStr formTime "0") with
    | none =>
      rw [hpt] at hok
      exact absurd hok (by simp)
    | some t =>
      rw [hpt] at hok
      simp only [RoundPostResult.ok.injEq] at hok
      exact ⟨hn, t, rfl, hok.symm⟩

/-- C5: a round submission upserts the record for round `n` in the session's
round sequence — every round number afterwards present is `n` or was already
present, the length grows only when round `n` was absent, records for other
rounds are unchanged, and a record for round `n` carrying the submitted data
is present — the sequence ends up sorted ascending by round number, contains
no duplicate round numbers, and never exceeds length 10. -/
theorem round_post_upsert_invariants (n : Nat) (formX formTime : Option String)
    (win : Bool) (st st' : SessionState)
    (hnd : (st.rounds.map (fun r => r.round)).Nodup)
    (hrange : ∀ r ∈ st.rounds, 1 ≤ r.round ∧ r.round ≤ 10)
    (hok : round_page_post n formX formTime win st = .ok st') :
    ((st'.rounds.map (fun r => r.round)).Sorted (· ≤ ·)) ∧
    ((st'.rounds.map (fun r => r.round)).Nodup) ∧
    st'.rounds.length ≤ 10 ∧
    (∀ m, m ∈ st'.rounds.map (fun r => r.round) ↔
      m = n ∨ m ∈ st.rounds.map (fun r => r.round)) ∧
    st'.rounds.length =
      (if n ∈ st.rounds.map (fun r => r.round) then st.rounds.length
       else st.rounds.length + 1) ∧
    (∀ r ∈ st'.rounds, r.round ≠ n → r ∈ st.rounds) ∧
    (∃ r ∈ st'.rounds, r.round = n ∧ r.x = parse_x formX ∧ r.win = win) := by
  obtain ⟨⟨hn1, hn2⟩, t, hpt, hst'⟩ := round_page_post_ok n formX formTime win st st' hok
  set nr : RoundRec :=
    ⟨n, parse_x formX, win, wealth ((parse_x formX : Int) : ℚ) win, t⟩ with hnrdef
  have hnr : nr.round = n := rfl
  have hrounds : st'.rounds = sortRounds (saveRound n nr st.rounds) := by rw [hst']
  have hperm : List.Perm (sortRounds (saveRound n nr st.rounds)) (saveRound n nr st.rounds) :=
    sortRounds_perm _
  have hkeys := map_round_saveRound n nr hnr st.rounds
  have hpermkeys : List.Perm (st'.rounds.map (fun r => r.round))
      ((saveRound n nr st.rounds).map (fun r => r.round)) := by
    rw [hrounds]
    exact hperm.map _
  have hmemiff : ∀ m, m ∈ st'.rounds.map (fun r => r.round) ↔
      m = n ∨ m ∈ st.rounds.map (fun r => r.round) := by
    intro m
    rw [hpermkeys.mem_iff, hkeys]
    by_cases h2 : n ∈ st.rounds.map (fun r => r.round)
    · rw [if_pos h2]
      constructor
      · exact fun h => .inr h
      · rintro (rfl | h)
        · exact h2
        · exact h
    · rw [if_neg h2]
      simp only [List.mem_append, List.mem_singleton]
      tauto
  have hnodup : (st'.rounds.map (fun r => r.round)).Nodup := by
    rw [hpermkeys.nodup_iff, hkeys]
    by_cases h2 : n ∈ st.rounds.map (fun r => r.round)
    · rw [if_pos h2]
      exact hnd
    · rw [if_neg h2]
      exact ((List.perm_append_singleton n _).nodup_iff).mpr
        (List.nodup_cons.mpr ⟨h2, hnd⟩)
  refine ⟨?_, hnodup, ?_, hmemiff, ?_, ?_, ?_⟩
  · rw [hrounds]
    exact sorted_map_round_sortRounds _
  · have hlen : st'.rounds.length = (st'.rounds.map (fun r => r.round)).length :=
      (List.length_map _ _).symm
    rw [hlen]
    refine length_le_ten_of_nodup_keys _ hnodup ?_
    intro m hm
    rcases (hmemiff m).mp hm with rfl | hmem
    · exact ⟨hn1, hn2⟩
    · rcases List.mem_map.mp hmem with ⟨r, hr, rfl⟩
      exact hrange r hr
  · have h1 : st'.rounds.length = (saveRound n nr st.rounds).length := by
      rw [hrounds]
      exact hperm.length_eq
    have h2 := congrArg List.length hkeys
    rw [List.length_map, apply_ite List.length, List.length_append,
      List.length_map] at h2
    rw [h1, h2]
    by_cases h3 : n ∈ st.rounds.map (fun r => r.round) <;> simp [h3]
  · intro r hr hrne
    have hr' : r ∈ saveRound n nr st.rounds := by
      rw [hrounds] at hr
      exact hperm.mem_iff.mp hr
    rcases mem_of_mem_saveRound n nr st.rounds r hr' with rfl | hmem
    · exact absurd hnr hrne
    · exact hmem
  · refine ⟨nr, ?_, rfl, rfl, rfl⟩
    rw [hrounds]
    exact hperm.mem_iff.mpr (mem_saveRound_self n nr st.rounds)

theorem round_post_upsert_invariants_witness :
    ∃ st' : SessionState,
      round_page_post 4 (some "30") (some "100") true
        ⟨[⟨1, 10, true, 115, 5⟩, ⟨4, 50, false, 50, 7⟩], some 2,
          ⟨none, "", none, ""⟩⟩ = .ok st' ∧
      st'.rounds.length ≤ 10 ∧ (st'.rounds.map (fun r => r.round)).Nodup := by
  have hok : round_page_post 4 (some "30") (some "100") true
      ⟨[⟨1, 10, true, 115, 5⟩, ⟨4, 50, false, 50, 7⟩], some 2, ⟨none, "", none, ""⟩⟩ =
      .ok ⟨[⟨1, 10, true, 115, 5⟩,
        ⟨4, parse_x (some "30"), true, wealth ((parse_x (some "30") : Int) : ℚ) true, 100⟩],
        some 2, ⟨none, "", none, ""⟩⟩ := rfl
  have h := round_post_upsert_invariants 4 (some "30") (some "100") true _ _
    (by decide) (by decide) hok
  exact ⟨_, hok, h.2.2.1, h.2.1⟩

/-- C6 counterexample: a round submission whose `time_ms` field holds the
non-numeric string `"abc"` raises an uncaught `ValueError` instead of being
coerced to 0. -/
theorem round_post_malformed_time_ms_errs :
    round_page_post 1 (some "50") (some "abc") true
      ⟨[], some 3, ⟨none, "", none, ""⟩⟩ = .err := by
  decide

/-- C6 amended: the `time_ms` form field is parsed with
`int(request.form.get("time_ms") or "0")`; it defaults to 0 when the field
is missing or empty, but a non-empty non-numeric value raises an uncaught
error (the submission fails) instead of being coerced to 0. -/
theorem round_post_time_ms_semantics (n : Nat) (formX v : Option String)
    (win : Bool) (st : SessionState) (hn1 : 1 ≤ n) (hn2 : n ≤ 10) :
    ((v = none ∨ v = some "") → ∃ st', round_page_post n formX v win st = .ok st' ∧
      ∃ r ∈ st'.rounds, r.round = n ∧ r.time_ms = 0) ∧
    (∀ s : String, s ≠ "" → pyInt s = none →
      round_page_post n formX (some s) win st = .err) := by
  have hnotrange : ¬ (n < 1 ∨ 10 < n) := by omega
  constructor
  · intro hv
    have hv0 : pyOrStr v "0" = "0" := by
      rcases hv with rfl | rfl <;> simp [pyOrStr]
    have hp : pyInt (pyOrStr v "0") = some 0 := by
      rw [hv0]
      decide
    refine ⟨⟨sortRounds (saveRound n
        ⟨n, parse_x formX, win, wealth ((parse_x formX : Int) : ℚ) win, 0⟩ st.rounds),
        st.R, st.demographics⟩, ?_, ?_⟩
    · unfold round_page_post
      rw [if_neg hnotrange, hp]
    · refine ⟨⟨n, parse_x formX, win, wealth ((parse_x formX : Int) : ℚ) win, 0⟩,
        ?_, rfl, rfl⟩
      exact (sortRounds_perm _).mem_iff.mpr (mem_saveRound_self _ _ _)
  · intro s hs hnone
    have h1 : pyOrStr (some s) "0" = s := by simp [pyOrStr, hs]
    unfold round_page_post
    rw [if_neg hnotrange, h1, hnone]

theorem round_post_time_ms_semantics_witness :
    round_page_post 2 (some "7") (some "xyz") false
      ⟨[], none, ⟨none, "", none, ""⟩⟩ = .err :=
  (round_post_time_ms_semantics 2 (some "7") none false
    ⟨[], none, ⟨none, "", none, ""⟩⟩ (by decide) (by decide)).2 "xyz"
    (by decide) (by decide)

/-- C7 counterexample: a survey submission whose `age` field holds the
non-numeric string `"abc"` raises an uncaught `ValueError` instead of
falling back to null. -/
theorem survey_malformed_age_errs :
    survey_post none none (some "abc") none = none := by
  decide

/-- C7 amended: the `age` field is stored as `int(age) if age else None`;
empty or absent input yields null, a non-empty numeric string is stored as
its integer value, but a non-empty non-numeric value raises an uncaught
error (the submission fails) instead of falling back to null. -/
theorem survey_age_semantics (formName formGender formAge formRace : Option String) :
    ((formAge = none ∨ formAge = some "") →
      ∃ d, survey_post formName formGender formAge formRace = some d ∧ d.age = none) ∧
    (∀ s : String, s ≠ "" → pyInt s = none →
      survey_post formName formGender (some s) formRace = none) ∧
    (∀ s : String, ∀ k : Int, s ≠ "" → pyInt s = some k →
      ∃ d, survey_post formName formGender (some s) formRace = some d ∧ d.age = some k) := by
  refine ⟨?_, ?_, ?_⟩
  · rintro (rfl | rfl) <;> exact ⟨_, rfl, rfl⟩
  · intro s hs hnone
    have h1 : pyOrStr (some s) "" = s := by simp [pyOrStr, hs]
    unfold survey_post
    rw [h1, if_neg hs, hnone]
  · intro s k hs hk
    have h1 : pyOrStr (some s) "" = s := by simp [pyOrStr, hs]
    unfold survey_post
    rw [h1, if_neg hs, hk]
    exact ⟨_, rfl, rfl⟩

theorem survey_age_semantics_witness :
    (∃ d, survey_post none none none none = some d ∧ d.age = none) ∧
    survey_post none none (some "twenty") none = none :=
  ⟨(survey_age_semantics none none none none).1 (Or.inl rfl),
   (survey_age_semantics none none none none).2.1 "twenty" (by decide) (by decide)⟩

theorem find?_round_eq (l : List RoundRec) (r0 : RoundRec) (k : Nat)
    (hnd : (l.map (fun r => r.round)).Nodup) (hmem : r0 ∈ l) (hk : r0.round = k) :
    l.find? (fun r => r.round == k) = some r0 := by
  induction l with
  | nil => cases hmem
  | cons a as ih =>
    rw [List.map_cons, List.nodup_cons] at hnd
    rcases List.mem_cons.mp hmem with rfl | hmem'
    · have hpa : (r0.round == k) = true := by simp [hk]
      simp [List.find?_cons, hpa]
    · have hane : (a.round == k) = false := by
        rw [beq_eq_false_iff_ne]
        intro h
        exact hnd.1 (by
          rw [h, ← hk]
          exact List.mem_map_of_mem (fun r => r.round) hmem')
      rw [List.find?_cons, hane]
      exact ih hnd.2 hmem'

/-- C1: when all 10 rounds are recorded, the persisted `final_payoff` equals
the `wealth` of the round record whose round number equals the resolved
chosen round `pyOrNat st.R 1` — the session's `chosenRound` when set, with
the lookup falling back to round 1 when it is unset (`st.get("R") or 1`). -/
theorem results_final_payoff_eq_chosen_round_wealth (st : SessionState)
    (r0 : RoundRec) (hlen : st.rounds.length = 10)
    (hnd : (st.rounds.map (fun r => r.round)).Nodup)
    (hmem : r0 ∈ st.rounds) (hr : r0.round = pyOrNat st.R 1) :
    ∃ p, results st = .finalize p ∧ p.final_payoff = r0.wealth ∧
      p.chosen_round = pyOrNat st.R 1 := by
  have hnot : ¬ st.rounds.length < 10 := by omega
  have hfind := find?_round_eq st.rounds r0 (pyOrNat st.R 1) hnd hmem hr
  unfold results
  rw [if_neg hnot]
  refine ⟨_, rfl, ?_, rfl⟩
  rw [hfind]
  rfl

theorem results_final_payoff_witness :
    ∃ p, results ⟨[⟨1, 10, false, 90, 1⟩, ⟨2, 20, true, 130, 1⟩,
      ⟨3, 20, true, 130, 1⟩, ⟨4, 40, false, 60, 1⟩, ⟨5, 50, true, 175, 1⟩,
      ⟨6, 60, false, 40, 1⟩, ⟨7, 70, true, 205, 1⟩, ⟨8, 80, false, 20, 1⟩,
      ⟨9, 90, true, 235, 1⟩, ⟨10, 100, false, 0, 1⟩], some 3,
      ⟨none, "", none, ""⟩⟩ = .finalize p ∧
      p.final_payoff = (⟨3, 20, true, 130, 1⟩ : RoundRec).wealth ∧
      p.chosen_round = pyOrNat (some 3) 1 :=
  results_final_payoff_eq_chosen_round_wealth
    ⟨[⟨1, 10, false, 90, 1⟩, ⟨2, 20, true, 130, 1⟩,
      ⟨3, 20, true, 130, 1⟩, ⟨4, 40, false, 60, 1⟩, ⟨5, 50, true, 175, 1⟩,
      ⟨6, 60, false, 40, 1⟩, ⟨7, 70, true, 205, 1⟩, ⟨8, 80, false, 20, 1⟩,
      ⟨9, 90, true, 235, 1⟩, ⟨10, 100, false, 0, 1⟩], some 3,
      ⟨none, "", none, ""⟩⟩
    ⟨3, 20, true, 130, 1⟩ (by decide) (by decide) (by decide) (by decide)

/-- C4 counterexample: with records for rounds 1, 2 and 4 (three records),
`/results` redirects to round `len(rounds) + 1 = 4`, while the smallest
round number in `[1,10]` with no record is 3. -/
theorem results_redirect_not_first_missing :
    results ⟨[⟨1, 10, true, 115, 0⟩, ⟨2, 20, false, 80, 0⟩, ⟨4, 40, true, 160, 0⟩],
      some 5, ⟨none, "", none, ""⟩⟩ = .redirect 4 ∧
    specFirstMissing ([⟨1, 10, true, 115, 0⟩, ⟨2, 20, false, 80, 0⟩,
      (⟨4, 40, true, 160, 0⟩ : RoundRec)].map (fun r => r.round)) = 3 ∧
    (4 : Nat) ≠ 3 := by
  refine ⟨?_, by decide, by decide⟩
  decide

/-- C4 amended: a `/results` request with fewer than 10 recorded rounds
performs no persistence and redirects to round `len(rounds) + 1`; whenever
the recorded round numbers are exactly `1..len(rounds)` (the only sequences
reachable without skipping rounds via URL manipulation) this target equals
the smallest round number in `[1,10]` with no record, e.g. rounds 1-3
recorded redirect to round 4. -/
theorem results_redirect_round_count_succ (st : SessionState)
    (hlen : st.rounds.length < 10) :
    results st = .redirect (st.rounds.length + 1) ∧
    (st.rounds.map (fun r => r.round) = List.range' 1 st.rounds.length →
      specFirstMissing (st.rounds.map (fun r => r.round)) = st.rounds.length + 1) := by
  constructor
  · unfold results
    rw [if_pos hlen]
  · intro hmap
    rw [hmap]
    generalize st.rounds.length = k at hlen ⊢
    interval_cases k <;> decide

theorem results_redirect_round_count_succ_witness :
    results ⟨[⟨1, 10, true, 115, 0⟩, ⟨2, 20, false, 80, 0⟩,
      ⟨3, 40, true, 160, 0⟩], some 5, ⟨none, "", none, ""⟩⟩ = .redirect 4 ∧
    ([(⟨1, 10, true, 115, 0⟩ : RoundRec), ⟨2, 20, false, 80, 0⟩,
      ⟨3, 40, true, 160, 0⟩].map (fun r => r.round) = List.range' 1 3 →
      specFirstMissing ([(⟨1, 10, true, 115, 0⟩ : RoundRec), ⟨2, 20, false, 80, 0⟩,
        ⟨3, 40, true, 160, 0⟩].map (fun r => r.round)) = 4) :=
  results_redirect_round_count_succ
    ⟨[⟨1, 10, true, 115, 0⟩, ⟨2, 20, false, 80, 0⟩, ⟨3, 40, true, 160, 0⟩],
      some 5, ⟨none, "", none, ""⟩⟩ (by decide)

theorem bucketLow_half_open (w : Int) (hw : 0 < w) (x : Int) :
    bucketLow w x ≤ x ∧ x < bucketLow w x + w := by
  unfold bucketLow
  rw [Int.fdiv_eq_ediv _ hw.le]
  constructor
  · exact Int.ediv_mul_le x hw.ne'
  · have h := Int.lt_ediv_add_one_mul_self x hw
    rw [add_one_mul] at h
    exact h

theorem bucketLow_eq_iff (w : Int) (hw : 0 < w) (q x : Int) :
    bucketLow w x = q * w ↔ q * w ≤ x ∧ x < q * w + w := by
  constructor
  · intro h
    have h2 := bucketLow_half_open w hw x
    rw [h] at h2
    exact h2
  · rintro ⟨h1, h2⟩
    unfold bucketLow
    rw [Int.fdiv_eq_ediv _ hw.le]
    have hq1 : q ≤ x / w := by
      have h3 := Int.ediv_le_ediv hw h1
      rwa [Int.mul_ediv_cancel q hw.ne'] at h3
    have hq2 : x / w < q + 1 := by
      rw [Int.ediv_lt_iff_lt_mul hw, add_one_mul]
      linarith
    have hq : x / w = q := by omega
    rw [hq]

/-- C9: for each bin width `w ∈ {5,10,20}` and every decision set, the
histogram labels each bucket `b` as `binLabel` (the text `b–(b+w−1)`), each
bucket's count is the number of decisions with `x` in the half-open interval
`[b, b+w)`, buckets with zero count are omitted, the entries are sorted
strictly ascending by bucket lower bound, and the counts sum to the number
of decisions. -/
theorem hist_by_bin_spec (w : Int) (hw : w = 5 ∨ w = 10 ∨ w = 20)
    (xs : List Int) :
    (∀ e ∈ hist_by_bin w xs,
      e.2.1 = binLabel w e.1 ∧
      e.2.2 = (xs.filter (fun x => decide (e.1 ≤ x) && decide (x < e.1 + w))).length ∧
      e.2.2 ≠ 0) ∧
    ((hist_by_bin w xs).map (fun e => e.1)).Sorted (· < ·) ∧
    ((hist_by_bin w xs).map (fun e => e.2.2)).sum = xs.length := by
  have hw0 : 0 < w := by rcases hw with rfl | rfl | rfl <;> norm_num
  have hperm : List.Perm (List.insertionSort (fun a b : Int => a ≤ b)
      ((xs.map (bucketLow w)).dedup)) ((xs.map (bucketLow w)).dedup) :=
    List.perm_insertionSort _ _
  refine ⟨?_, ?_, ?_⟩
  · intro e he
    rcases List.mem_map.mp he with ⟨b, hb, rfl⟩
    have hbmem : b ∈ (xs.map (bucketLow w)).dedup := hperm.mem_iff.mp hb
    have hbmem' : b ∈ xs.map (bucketLow w) := List.mem_dedup.mp hbmem
    rcases List.mem_map.mp hbmem' with ⟨y, hy, hby⟩
    have hform : b = Int.fdiv y w * w := hby.symm
    have hiff : ∀ x : Int, bucketLow w x = b ↔ b ≤ x ∧ x < b + w := by
      intro x
      rw [hform]
      exact bucketLow_eq_iff w hw0 (Int.fdiv y w) x
    refine ⟨rfl, ?_, ?_⟩
    · dsimp only
      congr 1
      apply List.filter_congr
      intro x _
      apply Bool.eq_iff_iff.mpr
      simp only [beq_iff_eq, Bool.and_eq_true, decide_eq_true_eq]
      exact hiff x
    · dsimp only
      intro hzero
      rw [List.length_eq_zero] at hzero
      have hymem : y ∈ xs.filter (fun x => bucketLow w x == b) :=
        List.mem_filter.mpr ⟨hy, by simp [hby]⟩
      rw [hzero] at hymem
      cases hymem
  · have hmapfst : (hist_by_bin w xs).map (fun e => e.1) =
        List.insertionSort (fun a b : Int => a ≤ b) ((xs.map (bucketLow w)).dedup) := by
      unfold hist_by_bin
      rw [List.map_map]
      exact List.map_id _
    rw [hmapfst]
    have hsorted : (List.insertionSort (fun a b : Int => a ≤ b)
        ((xs.map (bucketLow w)).dedup)).Sorted (fun a b : Int => a ≤ b) :=
      List.sorted_insertionSort _ _
    have hnd : (List.insertionSort (fun a b : Int => a ≤ b)
        ((xs.map (bucketLow w)).dedup)).Nodup :=
      (hperm.nodup_iff).mpr (List.nodup_dedup _)
    exact (List.Pairwise.and hsorted hnd).imp
      (fun h => lt_of_le_of_ne h.1 h.2)
  · unfold hist_by_bin
    rw [List.map_map]
    have hcount : ∀ b : Int, (xs.filter (fun x => bucketLow w x == b)).length =
        (xs.map (bucketLow w)).count b := by
      intro b
      rw [← List.countP_eq_length_filter, List.count_eq_countP, List.countP_map]
      rfl
    have hfun : ((fun (e : Int × String × Nat) => e.2.2) ∘
        (fun b => (b, binLabel w b, (xs.filter (fun x => bucketLow w x == b)).length))) =
        fun b => (xs.map (bucketLow w)).count b := by
      funext b
      exact hcount b
    rw [hfun]
    have hps : ((List.insertionSort (fun a b : Int => a ≤ b)
        ((xs.map (bucketLow w)).dedup)).map (fun b => (xs.map (bucketLow w)).count b)).sum =
        (((xs.map (bucketLow w)).dedup).map (fun b => (xs.map (bucketLow w)).count b)).sum :=
      (hperm.map _).sum_eq
    rw [hps, List.sum_map_count_dedup_eq_length, List.length_map]

theorem hist_by_bin_spec_witness :
    ((hist_by_bin 10 [3, 17, 15, 99]).map (fun e => e.2.2)).sum = 4 ∧
    ((hist_by_bin 10 [3, 17, 15, 99]).map (fun e => e.1)).Sorted (· < ·) := by
  have h := hist_by_bin_spec 10 (by norm_num) [3, 17, 15, 99]
  exact ⟨by simpa using h.2.2, h.2.1⟩

/-- C10: the age-group averaging step of the admin stats aggregation is
total exactly when the flattened decision set has homogeneous age keys:
it succeeds iff all ages are null or all are non-null, and sorting the
mixed `None`/int key set raises, so the aggregation returns `none` whenever
the decisions contain both a null age and a non-null age. -/
theorem avg_by_age_totality (ds : List Decision) :
    ((avg_by_age ds).isSome = true ↔
      (∀ d ∈ ds, d.age = none) ∨ (∀ d ∈ ds, d.age ≠ none)) ∧
    (∀ d1 ∈ ds, ∀ d2 ∈ ds, d1.age = none → d2.age ≠ none →
      avg_by_age ds = none) := by
  have hmemkeys : ∀ a : Option Int, a ∈ (ds.map (fun d => d.age)).dedup ↔
      ∃ d ∈ ds, d.age = a := by
    intro a
    rw [List.mem_dedup, List.mem_map]
  have hiso : (avg_by_age ds).isSome =
      (pySortAgeKeys ((ds.map (fun d => d.age)).dedup)).isSome := by
    unfold avg_by_age
    cases h : pySortAgeKeys ((ds.map (fun d => d.age)).dedup) <;> simp [h]
  have hiff : (avg_by_age ds).isSome = true ↔
      (∀ d ∈ ds, d.age = none) ∨ (∀ d ∈ ds, d.age ≠ none) := by
    rw [hiso]
    unfold pySortAgeKeys
    constructor
    · intro hs
      by_cases h1 : ((ds.map (fun d => d.age)).dedup).length ≤ 1
      · cases hkc : (ds.map (fun d => d.age)).dedup with
        | nil =>
          left
          intro d hd
          have hm : d.age ∈ (ds.map (fun d => d.age)).dedup :=
            (hmemkeys d.age).mpr ⟨d, hd, rfl⟩
          rw [hkc] at hm
          cases hm
        | cons k tail =>
          have htail : tail = [] := by
            rw [hkc] at h1
            simpa [Nat.succ_le_succ_iff, List.length_eq_zero] using h1
          subst htail
          cases k with
          | none =>
            left
            intro d hd
            have hm : d.age ∈ (ds.map (fun d => d.age)).dedup :=
              (hmemkeys d.age).mpr ⟨d, hd, rfl⟩
            rw [hkc] at hm
            simpa using hm
          | some v =>
            right
            intro d hd
            have hm : d.age ∈ (ds.map (fun d => d.age)).dedup :=
              (hmemkeys d.age).mpr ⟨d, hd, rfl⟩
            rw [hkc] at hm
            simp only [List.mem_singleton] at hm
            rw [hm]
            simp
      · rw [if_neg h1] at hs
        cases h2 : ((ds.map (fun d => d.age)).dedup).any (fun o => o.isNone) with
        | true =>
          rw [h2] at hs
          simp at hs
        | false =>
          right
          intro d hd hnone
          have hm : d.age ∈ (ds.map (fun d => d.age)).dedup :=
            (hmemkeys d.age).mpr ⟨d, hd, rfl⟩
          have hfalse := List.any_eq_false.mp h2 d.age hm
          rw [hnone] at hfalse
          exact hfalse rfl
    · intro hcond
      rcases hcond with hall | hall
      · have h1 : ((ds.map (fun d => d.age)).dedup).length ≤ 1 := by
          have hnd : ((ds.map (fun d => d.age)).dedup).Nodup := List.nodup_dedup _
          have hkn : ∀ a ∈ (ds.map (fun d => d.age)).dedup, a = (none : Option Int) := by
            intro a ha
            rcases (hmemkeys a).mp ha with ⟨d, hd, rfl⟩
            exact hall d hd
          cases hkc : (ds.map (fun d => d.age)).dedup with
          | nil => simp
          | cons k tail =>
            cases hkt : tail with
            | nil => simp
            | cons k2 t2 =>
              exfalso
              rw [hkc, hkt] at hkn hnd
              have e1 := hkn k (by simp)
              have e2 := hkn k2 (by simp)
              rw [List.nodup_cons] at hnd
              exact hnd.1 (by rw [e1, ← e2]; simp)
        rw [if_pos h1]
        simp
      · by_cases h1 : ((ds.map (fun d => d.age)).dedup).length ≤ 1
        · rw [if_pos h1]
          simp
        · rw [if_neg h1]
          have h2 : ((ds.map (fun d => d.age)).dedup).any (fun o => o.isNone) = false := by
            apply List.any_eq_false.mpr
            intro a ha
            rcases (hmemkeys a).mp ha with ⟨d, hd, rfl⟩
            have hne := hall d hd
            cases hda : d.age with
            | none => exact absurd hda hne
            | some v => simp
          rw [h2]
          simp
  refine ⟨hiff, ?_⟩
  intro d1 hd1 d2 hd2 h1 h2
  have hne : ¬ ((∀ d ∈ ds, d.age = none) ∨ (∀ d ∈ ds, d.age ≠ none)) := by
    rintro (h | h)
    · exact h2 (h d2 hd2)
    · exact (h d1 hd1) h1
  cases havg : avg_by_age ds with
  | none => rfl
  | some v =>
    exact absurd (hiff.mp (by rw [havg]; rfl)) hne

theorem avg_by_age_totality_witness :
    avg_by_age [⟨"F", none, "", 10⟩, ⟨"M", some 20, "", 30⟩] = none :=
  (avg_by_age_totality [⟨"F", none, "", 10⟩, ⟨"M", some 20, "", 30⟩]).2
    ⟨"F", none, "", 10⟩ (by decide) ⟨"M", some 20, "", 30⟩ (by decide)
    (by decide) (by decide)

end Exp2
